import Mathlib

/-!
Verification development for the RTP H.264 access-unit reassembly core
(AAVCAssembler) and the virtual-camera render-thread task type.

The assembler implementation itself is not part of the reviewed sources
(only its header declaration is), so the assembler model below is built
from the specification document; the render-thread task type is embedded
directly from `VirtualCameraRenderThread.h`.
-/

namespace RtpAssembly

/-- Modulus of the 16-bit RTP sequence-number space. -/
def M16 : Nat := 65536

/-- Modelled from the spec: `SequenceSpace.distance(a, b)` — the signed
wraparound-aware gap `b - a` interpreted as a signed 16-bit value
(the portion of AAVCAssembler built on sequence-number arithmetic is not
in the reviewed sources). -/
def distance (a b : Nat) : Int :=
  let d := (b % M16 + M16 - a % M16) % M16
  if d < 32768 then (d : Int) else (d : Int) - (M16 : Int)

/-- Modelled from the spec: `SequenceSpace.precedes(a, b)` — true iff `a`
is earlier than `b` under modulo-2^16 wraparound semantics, defined as the
signed 16-bit difference `b - a` being positive. -/
def precedes (a b : Nat) : Bool :=
  decide (0 < distance a b)

/-- The sequence number immediately following `s` in the 16-bit space. -/
def nextSeq (s : Nat) : Nat := (s + 1) % M16

/-- An RTP packet as handed to the core: 16-bit sequence number, 32-bit
timestamp, marker flag and raw payload whose first byte is a NAL header. -/
structure Packet where
  seqNo : Nat
  timestamp : Nat
  marker : Bool
  payload : List Nat
deriving DecidableEq

/-- The NAL type carried in the low five bits of a NAL header byte. -/
def nalType (hdr : Nat) : Nat := hdr % 32

/-- A reconstructed NAL unit tagged with its access-unit timestamp and
its NAL type. -/
structure NalUnit where
  timestamp : Nat
  ty : Nat
  data : List Nat
deriving DecidableEq

/-- Modelled from the spec: transient state held while a fragmented (FU-A)
NAL unit is being reassembled — accumulated payload so far, the original
NAL type recorded from the fragmentation-unit header, and the last
sequence number consumed. -/
structure FragmentState where
  accum : List Nat
  origType : Nat
  lastSeqNo : Nat
deriving DecidableEq

/-- The depacketizer failure taxonomy of the spec. -/
inductive DepackError where
  | malformedAggregate
  | fragmentGap
  | unsupportedNalType
deriving DecidableEq

/-- Result of depacketizing one packet: the surviving fragment state, the
NAL units produced, and an optional failure. -/
structure DepackResult where
  fragState : Option FragmentState
  nals : List NalUnit
  error : Option DepackError
deriving DecidableEq

/-- Modelled from the spec: parsing of an aggregated (STAP-A) payload body
into its (2-byte big-endian length, NAL bytes) entries; `none` when some
length field would read past the buffer end. -/
def parseAggregate : List Nat → Option (List (List Nat))
  | [] => some []
  | [_] => none
  | hi :: lo :: rest =>
    let len := hi * 256 + lo
    if len ≤ rest.length then
      match parseAggregate (rest.drop len) with
      | some entries => some (rest.take len :: entries)
      | none => none
    else none
termination_by l => l.length
decreasing_by
  simp only [List.length_drop, List.length_cons]
  omega

/-- Modelled from the spec: the Depacketizer. Classifies one packet's NAL
header and expands it into zero or more NAL units, threading the
fragment-reassembly state. -/
def depacketize (fs : Option FragmentState) (p : Packet) : DepackResult :=
  match p.payload with
  | [] => ⟨fs, [], some .unsupportedNalType⟩
  | hdr :: rest =>
    let t := nalType hdr
    if 1 ≤ t ∧ t ≤ 23 then
      ⟨fs, [⟨p.timestamp, t, p.payload⟩], none⟩
    else if t = 24 then
      match parseAggregate rest with
      | some entries =>
        ⟨fs, entries.map (fun e => ⟨p.timestamp, nalType (e.headD 0), e⟩), none⟩
      | none => ⟨fs, [], some .malformedAggregate⟩
    else if t = 28 then
      match rest with
      | [] => ⟨none, [], some .fragmentGap⟩
      | fuHdr :: body =>
        let startFlag := fuHdr / 128 % 2 = 1
        let endFlag := fuHdr / 64 % 2 = 1
        let orig := fuHdr % 32
        if startFlag then
          if endFlag then
            ⟨none, [⟨p.timestamp, orig, body⟩], none⟩
          else
            ⟨some ⟨body, orig, p.seqNo⟩, [], none⟩
        else
          match fs with
          | none => ⟨none, [], some .fragmentGap⟩
          | some st =>
            if p.seqNo = nextSeq st.lastSeqNo then
              if endFlag then
                ⟨none, [⟨p.timestamp, st.origType, st.accum ++ body⟩], none⟩
              else
                ⟨some ⟨st.accum ++ body, st.origType, p.seqNo⟩, [], none⟩
            else ⟨none, [], some .fragmentGap⟩
    else ⟨fs, [], some .unsupportedNalType⟩

/-- Configuration of the loss policy: the tunable salvage-ratio threshold. -/
structure Config where
  minRatio : ℚ
deriving DecidableEq

/-- Modelled from the spec: `LossPolicy.shouldSalvage(expectedCount,
presentCount, minRatio)` — the salvage judgment, computed here by
cross-multiplication over the integers. -/
def shouldSalvage (expectedCount presentCount : Nat) (minRatio : ℚ) : Bool :=
  decide (minRatio.num * (expectedCount : Int) ≤ (presentCount : Int) * (minRatio.den : Int))

/-- Events reported at the notifier boundary, one per access-unit
resolution. -/
inductive Event where
  | accessUnitReady (timestamp : Nat) (nalUnits : List NalUnit) (damaged : Bool)
  | accessUnitDiscarded (timestamp : Nat)
deriving DecidableEq

/-- Modelled from the spec: the AccessUnitAssembler state — the pending
queue, sequence-number tracking, the access unit currently accumulating
(with its span accounting), the fragment-reassembly state and the
session-ended flag. -/
structure AsmState where
  queue : List Packet
  nextExpectedSeqNoValid : Bool
  nextExpectedSeqNo : Nat
  accumulating : Bool
  accessUnitRTPTime : Nat
  nalUnits : List NalUnit
  auStartSeqNo : Nat
  auLastSeqNo : Nat
  auPresentCount : Nat
  unrecoverable : Bool
  fragState : Option FragmentState
  ended : Bool
deriving DecidableEq

/-- The initial (Idle) assembler state. -/
def initAsmState : AsmState where
  queue := []
  nextExpectedSeqNoValid := false
  nextExpectedSeqNo := 0
  accumulating := false
  accessUnitRTPTime := 0
  nalUnits := []
  auStartSeqNo := 0
  auLastSeqNo := 0
  auPresentCount := 0
  unrecoverable := false
  fragState := none
  ended := false

/-- Number of sequence numbers in the span of the accumulating access
unit, first consumed through last consumed, wraparound-aware. -/
def auExpectedCount (s : AsmState) : Nat :=
  (s.auLastSeqNo % M16 + M16 - s.auStartSeqNo % M16) % M16 + 1

/-- Return to the Idle state, clearing all per-access-unit state. -/
def resetAU (s : AsmState) : AsmState :=
  { s with accumulating := false, nalUnits := [], unrecoverable := false,
           auPresentCount := 0, fragState := none }

/-- Modelled from the spec: the closing policy of `submitAccessUnit`.
An unrecoverable unit is discarded; a gap-free span is emitted complete;
a gapped span meeting the salvage threshold is emitted damaged;
otherwise the unit is discarded with a loss event. -/
def closeAccessUnit (cfg : Config) (s : AsmState) : AsmState × List Event :=
  if s.unrecoverable then
    (resetAU s, [.accessUnitDiscarded s.accessUnitRTPTime])
  else if s.auPresentCount = auExpectedCount s then
    (resetAU s, [.accessUnitReady s.accessUnitRTPTime s.nalUnits false])
  else if shouldSalvage (auExpectedCount s) s.auPresentCount cfg.minRatio then
    (resetAU s, [.accessUnitReady s.accessUnitRTPTime s.nalUnits true])
  else
    (resetAU s, [.accessUnitDiscarded s.accessUnitRTPTime])

/-- Modelled from the spec: dequeue one packet, run it through the
Depacketizer, append the resulting NAL units to the accumulating access
unit (opening a new one when Idle), then detect an access-unit boundary:
marker set on the consumed packet, or the next queued packet carrying a
different RTP timestamp. -/
def consumePacket (cfg : Config) (s : AsmState) (p : Packet) (rest : List Packet) :
    AsmState × List Event :=
  let r := depacketize s.fragState p
  let opened : AsmState :=
    if s.accumulating then
      { s with queue := rest, fragState := r.fragState,
               nalUnits := s.nalUnits ++ r.nals,
               auLastSeqNo := p.seqNo,
               auPresentCount := s.auPresentCount + 1,
               nextExpectedSeqNoValid := true,
               nextExpectedSeqNo := nextSeq p.seqNo }
    else
      { s with queue := rest, fragState := r.fragState,
               accumulating := true,
               accessUnitRTPTime := p.timestamp,
               nalUnits := r.nals,
               auStartSeqNo := p.seqNo, auLastSeqNo := p.seqNo,
               auPresentCount := 1,
               unrecoverable := false,
               nextExpectedSeqNoValid := true,
               nextExpectedSeqNo := nextSeq p.seqNo }
  let boundary :=
    p.marker ||
      (match rest with
       | q :: _ => decide (q.timestamp ≠ opened.accessUnitRTPTime)
       | [] => false)
  if boundary then closeAccessUnit cfg opened else (opened, [])

/-- Modelled from the spec: one `step(source)` of the assembler. A stale
queue head (one preceding the next expected sequence number, hence
already consumed or discarded) is dropped; a timestamp change at the
head closes the accumulating unit; a missing expected sequence number
either waits (NotEnoughData) or, once the playout deadline has expired,
jumps ahead to the earliest present sequence number; otherwise the head
packet is consumed. -/
def step (cfg : Config) (deadlineExpired : Bool) (s : AsmState) :
    AsmState × List Event :=
  if s.ended then (s, [])
  else
    match s.queue with
    | [] => (s, [])
    | p :: rest =>
      if s.nextExpectedSeqNoValid && precedes p.seqNo s.nextExpectedSeqNo then
        ({ s with queue := rest }, [])
      else if s.accumulating && decide (p.timestamp ≠ s.accessUnitRTPTime) then
        closeAccessUnit cfg s
      else if s.nextExpectedSeqNoValid && decide (p.seqNo ≠ s.nextExpectedSeqNo) then
        if deadlineExpired then
          consumePacket cfg { s with nextExpectedSeqNo := p.seqNo } p rest
        else (s, [])
      else consumePacket cfg s p rest

/-- Repeated invocation of `step`, collecting the emitted events. -/
def stepMany (cfg : Config) (deadlineExpired : Bool) :
    Nat → AsmState → AsmState × List Event
  | 0, s => (s, [])
  | n + 1, s =>
    let r := step cfg deadlineExpired s
    let r2 := stepMany cfg deadlineExpired n r.1
    (r2.1, r.2 ++ r2.2)

/-- Sorted insertion of a packet into the pending queue by wraparound
sequence order. -/
def insertBySeq (p : Packet) : List Packet → List Packet
  | [] => [p]
  | q :: rest =>
    if precedes p.seqNo q.seqNo then p :: q :: rest else q :: insertBySeq p rest

/-- Modelled from the spec: arrival of a packet at the PendingQueue.
A duplicate sequence number is dropped on arrival; otherwise the packet
is inserted in sequence order. -/
def enqueuePacket (p : Packet) (q : List Packet) : List Packet :=
  if q.any (fun e => e.seqNo = p.seqNo) then q else insertBySeq p q

/-- Arrival of a packet at the assembler; no further input is accepted
after the session has ended. -/
def enqueue (s : AsmState) (p : Packet) : AsmState :=
  if s.ended then s else { s with queue := enqueuePacket p s.queue }

/-- Modelled from the spec: `packetLost()` — immediately abandons any
open FragmentState and marks the accumulating access unit unrecoverable,
forcing its next boundary to resolve via the Discarding path. -/
def packetLost (s : AsmState) : AsmState :=
  { s with fragState := none, unrecoverable := true }

/-- Modelled from the spec: `onSessionEnd()` — best-effort close of any
open access unit, after which the assembler accepts no further input. -/
def onSessionEnd (cfg : Config) (s : AsmState) : AsmState × List Event :=
  if s.accumulating then
    let r := closeAccessUnit cfg s
    ({ r.1 with ended := true }, r.2)
  else ({ s with ended := true }, [])

/-- The NAL unit produced from a single-NAL packet's payload. -/
def mkNalOfPayload (ts : Nat) (pl : List Nat) : NalUnit :=
  ⟨ts, nalType (pl.headD 0), pl⟩

/-- A run of single-NAL packets with consecutive sequence numbers from
`seq0`, all sharing timestamp `ts`, marker set only on the last. -/
def mkSingleRun (seq0 ts : Nat) : List (List Nat) → List Packet
  | [] => []
  | [pl] => [⟨seq0 % M16, ts, true, pl⟩]
  | pl :: rest => ⟨seq0 % M16, ts, false, pl⟩ :: mkSingleRun (seq0 + 1) ts rest

/-- Depacketize a list of packets in order, threading the fragment state
and collecting the NAL units and failures produced. -/
def depackList (fs : Option FragmentState) :
    List Packet → Option FragmentState × List NalUnit × List DepackError
  | [] => (fs, [], [])
  | p :: ps =>
    let r := depacketize fs p
    let rec2 := depackList r.fragState ps
    (rec2.1, r.nals ++ rec2.2.1, r.error.toList ++ rec2.2.2)

/-- A fragmentation-unit header byte: start flag, end flag and the
original NAL type in the low five bits. -/
def fuHeaderVal (s e : Bool) (orig : Nat) : Nat :=
  (if s then 128 else 0) + (if e then 64 else 0) + orig % 32

/-- An FU-A packet: indicator byte of type 28, then a fragmentation-unit
header carrying the start/end flags and the original NAL type, then the
fragment body. -/
def mkFuPacket (seq ts : Nat) (s e : Bool) (orig : Nat) (body : List Nat) : Packet :=
  ⟨seq % M16, ts, false, 28 :: fuHeaderVal s e orig :: body⟩

/-- The middle fragments followed by the end fragment of a fragmented NAL
unit, with consecutive sequence numbers from `seq0`. -/
def mkFragmentTail (seq0 ts orig : Nat) : List (List Nat) → List Packet
  | [] => []
  | [c] => [mkFuPacket seq0 ts false true orig c]
  | c :: cs => mkFuPacket seq0 ts false false orig c :: mkFragmentTail (seq0 + 1) ts orig cs

/-- A complete fragment run: start fragment carrying `c0`, then middle
fragments and the end fragment carrying `cs`. -/
def mkFragmentRun (seq0 ts orig : Nat) (c0 : List Nat) (cs : List (List Nat)) :
    List Packet :=
  mkFuPacket seq0 ts true false orig c0 :: mkFragmentTail (seq0 + 1) ts orig cs

/-- The body of an aggregated (STAP-A) payload: each entry preceded by
its length as two big-endian bytes. -/
def encodeAggregate : List (List Nat) → List Nat
  | [] => []
  | e :: es => e.length / 256 :: e.length % 256 :: (e ++ encodeAggregate es)

end RtpAssembly

namespace VirtualCamera

/-- One output buffer of a capture request, embedded from
`CaptureRequestBuffer` in `VirtualCameraRenderThread.h`. -/
structure CaptureRequestBuffer where
  mStreamId : Int
  mBufferId : Int
deriving DecidableEq

/-- Capture request settings, embedded from `RequestSettings` in
`VirtualCameraRenderThread.h` (fields not bearing on the task type's
boolean conversion are reduced to their integer content). -/
structure RequestSettings where
  jpegQuality : Int
  jpegOrientation : Int
deriving DecidableEq

/-- A single capture request, embedded from `ProcessCaptureRequestTask`
in `VirtualCameraRenderThread.h`. -/
structure ProcessCaptureRequestTask where
  mFrameNumber : Int
  mBuffers : List CaptureRequestBuffer
  mRequestSettings : RequestSettings
deriving DecidableEq

/-- Embedded from `RenderThreadTask` in `VirtualCameraRenderThread.h`:
a variant of a `ProcessCaptureRequestTask` unique pointer (which may be
null, rendered as `Option`) and an `UpdateTextureTask` (an empty
struct). -/
inductive RenderThreadTask where
  | processCaptureRequest (task : Option ProcessCaptureRequestTask)
  | updateTexture
deriving DecidableEq

/-- Embedded from `RenderThreadTask::operator bool`: the task is an exit
signal iff it holds the `ProcessCaptureRequestTask` alternative and that
pointer is null; the conversion returns the negation. -/
def RenderThreadTask.operatorBool (t : RenderThreadTask) : Bool :=
  let isExitSignal :=
    match t with
    | .processCaptureRequest task => task.isNone
    | .updateTexture => false
  !isExitSignal

end VirtualCamera

namespace RtpAssembly

theorem shouldSalvage_iff (e p : Nat) (r : ℚ) (he : 0 < e) :
    shouldSalvage e p r = true ↔ r ≤ (p : ℚ) / (e : ℚ) := by
  have heQ : (0 : ℚ) < (e : ℚ) := by exact_mod_cast he
  have hden : (0 : ℚ) < (r.den : ℚ) := by exact_mod_cast r.pos
  rw [shouldSalvage, decide_eq_true_eq, le_div_iff₀ heQ]
  constructor
  · intro h
    have hQ : (r.num : ℚ) * (e : ℚ) ≤ (p : ℚ) * (r.den : ℚ) := by exact_mod_cast h
    have h2 : r * (e : ℚ) * (r.den : ℚ) ≤ (p : ℚ) * (r.den : ℚ) := by
      calc r * (e : ℚ) * (r.den : ℚ) = r * (r.den : ℚ) * (e : ℚ) := by ring
        _ = (r.num : ℚ) * (e : ℚ) := by rw [Rat.mul_den_eq_num]
        _ ≤ (p : ℚ) * (r.den : ℚ) := hQ
    exact le_of_mul_le_mul_right h2 hden
  · intro h
    have h2 : r * (e : ℚ) * (r.den : ℚ) ≤ (p : ℚ) * (r.den : ℚ) :=
      mul_le_mul_of_nonneg_right h (le_of_lt hden)
    have hQ : (r.num : ℚ) * (e : ℚ) ≤ (p : ℚ) * (r.den : ℚ) := by
      calc (r.num : ℚ) * (e : ℚ) = r * (r.den : ℚ) * (e : ℚ) := by
            rw [Rat.mul_den_eq_num]
        _ = r * (e : ℚ) * (r.den : ℚ) := by ring
        _ ≤ (p : ℚ) * (r.den : ℚ) := h2
    exact_mod_cast hQ

theorem depacketize_mkFuPacket (fs : Option FragmentState) (seq ts : Nat)
    (s e : Bool) (orig : Nat) (body : List Nat) :
    depacketize fs (mkFuPacket seq ts s e orig body) =
      if s then
        (if e then ⟨none, [⟨ts, orig % 32, body⟩], none⟩
         else ⟨some ⟨body, orig % 32, seq % M16⟩, [], none⟩)
      else
        match fs with
        | none => ⟨none, [], some .fragmentGap⟩
        | some st =>
          if seq % M16 = nextSeq st.lastSeqNo then
            (if e then ⟨none, [⟨ts, st.origType, st.accum ++ body⟩], none⟩
             else ⟨some ⟨st.accum ++ body, st.origType, seq % M16⟩, [], none⟩)
          else ⟨none, [], some .fragmentGap⟩ := by
  have hs : ∀ b : Bool, (fuHeaderVal b e orig / 128 % 2 = 1) ↔ b = true := by
    intro b
    cases b <;> cases e <;> simp [fuHeaderVal] <;> omega
  have hen : ∀ b : Bool, (fuHeaderVal s b orig / 64 % 2 = 1) ↔ b = true := by
    intro b
    cases s <;> cases b <;> simp [fuHeaderVal] <;> omega
  have ho : fuHeaderVal s e orig % 32 = orig % 32 := by
    cases s <;> cases e <;> simp [fuHeaderVal] <;> omega
  simp only [depacketize, mkFuPacket, nalType]
  norm_num
  rw [ho]
  cases s with
  | false =>
    simp only [(hs false), if_neg (by simp : ¬(false = true))]
    cases fs with
    | none => simp
    | some st =>
      by_cases hseq : seq % M16 = nextSeq st.lastSeqNo
      · simp only [if_pos hseq]
        cases e with
        | false => simp [(hen false)]
        | true => simp [(hen true)]
      · simp [if_neg hseq]
  | true =>
    simp only [(hs true), if_pos rfl]
    cases e with
    | false => simp [(hen false)]
    | true => simp [(hen true)]

theorem nextSeq_mod (m : Nat) : (m + 1) % M16 = nextSeq (m % M16) := by
  simp only [nextSeq, M16]
  omega

theorem depackList_fragmentTail (ts orig : Nat) :
    ∀ (cs : List (List Nat)), cs ≠ [] → ∀ (acc : List Nat) (m last : Nat),
    m % M16 = nextSeq last →
    depackList (some ⟨acc, orig, last⟩) (mkFragmentTail m ts orig cs)
      = (none, [⟨ts, orig, acc ++ cs.flatten⟩], []) := by
  intro cs
  induction cs with
  | nil => intro h; exact absurd rfl h
  | cons c cs ih =>
    intro _ acc m last hm
    cases cs with
    | nil =>
      simp [mkFragmentTail, depackList, depacketize_mkFuPacket, hm]
    | cons c2 cs2 =>
      have step1 : depacketize (some ⟨acc, orig, last⟩)
          (mkFuPacket m ts false false orig c)
          = ⟨some ⟨acc ++ c, orig, m % M16⟩, [], none⟩ := by
        rw [depacketize_mkFuPacket]
        simp [hm]
      rw [mkFragmentTail, depackList]
      rw [step1]
      have ih2 := ih (List.cons_ne_nil c2 cs2) (acc ++ c) (m + 1) (m % M16) (nextSeq_mod m)
      simp only [ih2]
      simp
      exact List.cons_ne_nil c2 cs2

/-- C2: a fragmented (type 28) NAL unit delivered as a start fragment,
zero or more middle fragments with consecutive sequence numbers and an
end fragment yields exactly one NalUnit equal to the concatenation of
the fragments' bodies (fragmentation headers stripped), tagged with the
original NAL type from the fragmentation-unit header; a middle or end
fragment whose sequence number is not one more than the last consumed
discards the FragmentState with a FragmentGap failure and produces no
NalUnit. -/
theorem claim_C2_fragmented (ts orig seq0 : Nat) (c0 : List Nat)
    (cs : List (List Nat)) (st : FragmentState) (p : Packet)
    (fuInd fuHdr : Nat) (body : List Nat)
    (horig : orig < 32) (hcs : cs ≠ [])
    (hq : p.payload = fuInd :: fuHdr :: body) (hind : nalType fuInd = 28)
    (hnostart : fuHdr / 128 % 2 ≠ 1)
    (hgap : p.seqNo ≠ nextSeq st.lastSeqNo) :
    depackList none (mkFragmentRun seq0 ts orig c0 cs)
      = (none, [⟨ts, orig, c0 ++ cs.flatten⟩], [])
    ∧ depacketize (some st) p = ⟨none, [], some .fragmentGap⟩ := by
  constructor
  · have hstart : depacketize none (mkFuPacket seq0 ts true false orig c0)
        = ⟨some ⟨c0, orig, seq0 % M16⟩, [], none⟩ := by
      rw [depacketize_mkFuPacket]
      simp [Nat.mod_eq_of_lt horig]
    rw [mkFragmentRun, depackList, hstart]
    have htail := depackList_fragmentTail ts orig cs hcs c0 (seq0 + 1) (seq0 % M16)
      (nextSeq_mod seq0)
    simp only [htail]
    simp
  · rw [depacketize, hq]
    simp only [hind]
    norm_num
    rw [if_neg hnostart]
    rw [if_neg hgap]

/-- Witness for C2: a three-fragment run across the sequence-number
wraparound, and a middle fragment arriving after a sequence gap. -/
theorem claim_C2_witness :
    depackList none (mkFragmentRun 65535 1000 5 [9] [[8], [7]])
      = (none, [⟨1000, 5, [9] ++ [[8], [7]].flatten⟩], [])
    ∧ depacketize (some ⟨[1], 5, 10⟩) ⟨99, 1000, false, [28, 0, 3]⟩
      = ⟨none, [], some .fragmentGap⟩ := by
  exact claim_C2_fragmented 1000 5 65535 [9] [[8], [7]] ⟨[1], 5, 10⟩
    ⟨99, 1000, false, [28, 0, 3]⟩ 28 0 [3]
    (by decide) (by decide) rfl (by decide) (by decide) (by decide)

theorem parseAggregate_encode (entries : List (List Nat)) :
    parseAggregate (encodeAggregate entries) = some entries := by
  induction entries with
  | nil => simp [encodeAggregate, parseAggregate]
  | cons e es ih =>
    rw [encodeAggregate, parseAggregate]
    rw [show e.length / 256 * 256 + e.length % 256 = e.length by omega]
    rw [if_pos (by simp)]
    rw [List.drop_left' rfl, List.take_left' rfl, ih]

/-- C3: an aggregated (type 24) packet whose big-endian length prefixes
all lie within the buffer yields one NalUnit per entry in encoded order,
while an aggregated packet whose parse would read past the buffer end
fails with MalformedAggregate and emits zero NalUnits. -/
theorem claim_C3_aggregate (fs fs2 : Option FragmentState) (p q : Packet)
    (ind ind2 : Nat) (rest : List Nat) (entries : List (List Nat))
    (hty : nalType ind = 24) (hp : p.payload = ind :: encodeAggregate entries)
    (hbytes : ∀ e ∈ entries, e.length < 65536)
    (hty2 : nalType ind2 = 24) (hq : q.payload = ind2 :: rest)
    (hbad : parseAggregate rest = none) :
    depacketize fs p =
      ⟨fs, entries.map (fun e => ⟨p.timestamp, nalType (e.headD 0), e⟩), none⟩
    ∧ depacketize fs2 q = ⟨fs2, [], some .malformedAggregate⟩ := by
  constructor
  · rw [depacketize, hp]
    simp only [hty, parseAggregate_encode]
    norm_num
  · rw [depacketize, hq]
    simp only [hty2, hbad]
    norm_num

/-- Witness for C3: a well-formed aggregate of three entries and a
malformed aggregate whose length field overruns the buffer. -/
theorem claim_C3_witness :
    depacketize none ⟨5, 90000, false, 24 :: encodeAggregate [[1], [2, 3], [3]]⟩ =
      ⟨none, [⟨90000, 1, [1]⟩, ⟨90000, 2, [2, 3]⟩, ⟨90000, 3, [3]⟩], none⟩
    ∧ depacketize none ⟨6, 90000, false, [24, 0, 9, 7]⟩ =
      ⟨none, [], some .malformedAggregate⟩ := by
  have h := claim_C3_aggregate none none
    ⟨5, 90000, false, 24 :: encodeAggregate [[1], [2, 3], [3]]⟩
    ⟨6, 90000, false, [24, 0, 9, 7]⟩ 24 24 [0, 9, 7] [[1], [2, 3], [3]]
    (by decide) rfl (by decide) (by decide) rfl (by norm_num [parseAggregate])
  exact h

/-- C5: for all 16-bit sequence numbers `a` and `b`, `precedes a b` is
true iff the signed 16-bit difference `b - a` (modulo 2^16, here the
balanced residue `Int.bmod`) is positive, `distance a b` equals that
signed wraparound-aware gap, and in particular `precedes 65535 0` is
true. -/
theorem claim_C5_sequence_space (a b : Nat) (ha : a < M16) (hb : b < M16) :
    distance a b = Int.bmod ((b : Int) - (a : Int)) 65536
    ∧ (precedes a b = true ↔ 0 < Int.bmod ((b : Int) - (a : Int)) 65536)
    ∧ precedes 65535 0 = true := by
  have hd : distance a b = Int.bmod ((b : Int) - (a : Int)) 65536 := by
    unfold distance Int.bmod
    simp only [M16]
    split_ifs <;> omega
  refine ⟨hd, ?_, by decide⟩
  rw [precedes, decide_eq_true_eq, hd]

/-- Witness for C5 at the wraparound pair `(65535, 0)`. -/
theorem claim_C5_witness :
    distance 65535 0 = Int.bmod ((0 : Int) - (65535 : Int)) 65536
    ∧ (precedes 65535 0 = true ↔ 0 < Int.bmod ((0 : Int) - (65535 : Int)) 65536)
    ∧ precedes 65535 0 = true := by
  exact claim_C5_sequence_space 65535 0 (by decide) (by decide)

/-- C6: for every positive `expectedCount`, any `presentCount` and any
threshold `minRatio`, `shouldSalvage` returns true iff
`presentCount / expectedCount ≥ minRatio`; it is a pure function of its
three arguments. -/
theorem claim_C6_shouldSalvage (expectedCount presentCount : Nat) (minRatio : ℚ)
    (he : 0 < expectedCount) :
    shouldSalvage expectedCount presentCount minRatio = true ↔
      minRatio ≤ (presentCount : ℚ) / (expectedCount : ℚ) :=
  shouldSalvage_iff expectedCount presentCount minRatio he

/-- Witness for C6 at nine present out of ten expected against a
nine-tenths threshold. -/
theorem claim_C6_witness :
    shouldSalvage 10 9 ((9 : ℚ) / 10) = true ↔
      (9 : ℚ) / 10 ≤ ((9 : Nat) : ℚ) / ((10 : Nat) : ℚ) := by
  exact claim_C6_shouldSalvage 10 9 ((9 : ℚ) / 10) (by decide)

end RtpAssembly

namespace VirtualCamera

/-- C10: a RenderThreadTask's boolean conversion returns false iff the
task holds the ProcessCaptureRequestTask alternative with a null
pointer; every UpdateTextureTask and every non-null
ProcessCaptureRequestTask converts to true. -/
theorem claim_C10_renderThreadTask_bool :
    (∀ t : RenderThreadTask,
      t.operatorBool = false ↔ t = .processCaptureRequest none)
    ∧ RenderThreadTask.operatorBool .updateTexture = true
    ∧ (∀ task : ProcessCaptureRequestTask,
        RenderThreadTask.operatorBool (.processCaptureRequest (some task)) = true) := by
  refine ⟨?_, rfl, fun task => rfl⟩
  intro t
  cases t with
  | processCaptureRequest task =>
    cases task <;> simp [RenderThreadTask.operatorBool]
  | updateTexture => simp [RenderThreadTask.operatorBool]

end VirtualCamera

namespace RtpAssembly

theorem precedes_self (x : Nat) : precedes x x = false := by
  have h : (x % M16 + M16 - x % M16) % M16 = 0 := by
    simp only [M16]; omega
  simp [precedes, distance, h]

theorem depacketize_single (fs : Option FragmentState) (p : Packet)
    (hd : Nat) (tl : List Nat) (hpl : p.payload = hd :: tl)
    (h1 : 1 ≤ nalType hd) (h2 : nalType hd ≤ 23) :
    depacketize fs p = ⟨fs, [⟨p.timestamp, nalType hd, p.payload⟩], none⟩ := by
  simp only [depacketize, hpl]
  rw [if_pos ⟨h1, h2⟩]

theorem step_consume_inorder (cfg : Config) (d : Bool) (s : AsmState)
    (p : Packet) (rest : List Packet)
    (hq : s.queue = p :: rest) (hend : s.ended = false)
    (hvalid : s.nextExpectedSeqNoValid = true)
    (hseq : p.seqNo = s.nextExpectedSeqNo)
    (hts : s.accumulating = true → p.timestamp = s.accessUnitRTPTime) :
    step cfg d s = consumePacket cfg s p rest := by
  have hts2 : (s.accumulating && decide (p.timestamp ≠ s.accessUnitRTPTime)) = false := by
    cases hacc : s.accumulating with
    | false => simp
    | true => simp [hts hacc]
  simp [step, hq, hend, hvalid, hseq, precedes_self, hts2]
  intro hacc htsne
  exact absurd (hts hacc) htsne

theorem step_consume_idle (cfg : Config) (d : Bool) (s : AsmState)
    (p : Packet) (rest : List Packet)
    (hq : s.queue = p :: rest) (hend : s.ended = false)
    (hvalid : s.nextExpectedSeqNoValid = false) (hacc : s.accumulating = false) :
    step cfg d s = consumePacket cfg s p rest := by
  simp [step, hq, hend, hvalid, hacc]

theorem closeAccessUnit_complete (cfg : Config) (s : AsmState)
    (hrec : s.unrecoverable = false) (hcomp : s.auPresentCount = auExpectedCount s) :
    closeAccessUnit cfg s =
      (resetAU s, [.accessUnitReady s.accessUnitRTPTime s.nalUnits false]) := by
  rw [closeAccessUnit, if_neg (by simp [hrec]), if_pos hcomp]

theorem mkSingleRun_head_ts (m ts : Nat) (pl : List Nat) (pls : List (List Nat)) :
    ∃ q rest2, mkSingleRun m ts (pl :: pls) = q :: rest2 ∧ q.timestamp = ts := by
  cases pls with
  | nil => exact ⟨_, _, rfl, rfl⟩
  | cons a b => exact ⟨_, _, rfl, rfl⟩

theorem stepMany_singleRun (cfg : Config) (ts : Nat) :
    ∀ (payloads : List (List Nat)), payloads ≠ [] →
    (∀ pl ∈ payloads, ∃ hd tl, pl = hd :: tl ∧ 1 ≤ nalType hd ∧ nalType hd ≤ 23) →
    ∀ (m : Nat) (s : AsmState),
    s.ended = false → s.accumulating = true → s.accessUnitRTPTime = ts →
    s.nextExpectedSeqNoValid = true → s.nextExpectedSeqNo = m % M16 →
    s.queue = mkSingleRun m ts payloads → s.unrecoverable = false →
    s.auStartSeqNo < M16 →
    s.auLastSeqNo = (s.auStartSeqNo + s.auPresentCount - 1) % M16 →
    m % M16 = (s.auStartSeqNo + s.auPresentCount) % M16 →
    1 ≤ s.auPresentCount → s.auPresentCount + payloads.length ≤ M16 →
    (stepMany cfg false payloads.length s).2 =
      [.accessUnitReady ts (s.nalUnits ++ payloads.map (mkNalOfPayload ts)) false] := by
  intro payloads
  induction payloads with
  | nil => intro h; exact absurd rfl h
  | cons pl pls ih =>
    intro _ hty m s hend hacc hrtp hvalid hnext hq hrec ha hlast hm hk hbound
    obtain ⟨hd, tl, hpl, h1, h2⟩ := hty pl (List.mem_cons_self pl pls)
    cases pls with
    | nil =>
      have hq2 : s.queue = [⟨m % M16, ts, true, pl⟩] := by rw [hq]; rfl
      have hstep := step_consume_inorder cfg false s ⟨m % M16, ts, true, pl⟩ [] hq2
        hend hvalid hnext.symm (fun _ => hrtp.symm)
      have hdep := depacketize_single s.fragState ⟨m % M16, ts, true, pl⟩ hd tl hpl h1 h2
      simp only [List.length_cons, List.length_nil, stepMany]
      rw [hstep]
      rw [consumePacket]
      rw [hdep]
      simp only [hacc, if_true, Bool.true_or]
      have hspan : s.auPresentCount + 1 =
          (m % M16 % M16 + M16 - s.auStartSeqNo % M16) % M16 + 1 := by
        have hm2 := hm
        have ha2 := ha
        have hb2 := hbound
        simp only [List.length_cons, List.length_nil] at hb2
        simp only [M16] at hm2 ha2 hb2 ⊢
        omega
      rw [closeAccessUnit]
      rw [if_neg (by simp [hrec])]
      rw [if_pos (by simp only [auExpectedCount]; exact hspan)]
      simp [mkNalOfPayload, hpl, hrtp]
    | cons pl2 pls2 =>
      have hq2 : s.queue = ⟨m % M16, ts, false, pl⟩ :: mkSingleRun (m + 1) ts (pl2 :: pls2) := by
        rw [hq]; rfl
      have hstep := step_consume_inorder cfg false s ⟨m % M16, ts, false, pl⟩
        (mkSingleRun (m + 1) ts (pl2 :: pls2)) hq2 hend hvalid hnext.symm (fun _ => hrtp.symm)
      have hdep := depacketize_single s.fragState ⟨m % M16, ts, false, pl⟩ hd tl hpl h1 h2
      obtain ⟨q, rest2, hqr, hqts⟩ := mkSingleRun_head_ts (m + 1) ts pl2 pls2
      have hlen : (pl :: pl2 :: pls2).length = (pl2 :: pls2).length + 1 := rfl
      rw [hlen, stepMany]
      rw [hstep]
      rw [consumePacket.eq_def]
      rw [hdep]
      simp only [hacc, if_true, hqr]
      simp only [hqts, hrtp, decide_not, Bool.false_or]
      simp only [decide_True, Bool.not_true, Bool.false_eq_true, if_false]
      have hIH := ih (List.cons_ne_nil pl2 pls2)
        (fun x hx => hty x (List.mem_cons_of_mem pl hx))
        (m + 1)
        ⟨q :: rest2, true, nextSeq (m % M16), true, ts,
         s.nalUnits ++ [⟨ts, nalType hd, pl⟩], s.auStartSeqNo, m % M16,
         s.auPresentCount + 1, s.unrecoverable, s.fragState, s.ended⟩
        hend rfl rfl rfl (nextSeq_mod m).symm hqr.symm hrec ha
        (by simp only [M16, List.length_cons] at * ; omega)
        (by simp only [M16, List.length_cons] at * ; omega)
        (by simp only [M16, List.length_cons] at * ; omega)
        (by simp only [M16, List.length_cons] at * ; omega)
      rw [hIH]
      simp [mkNalOfPayload, hpl]

/-- C1: an in-order, loss-free run of single-NAL packets sharing one RTP
timestamp with the marker set only on the last yields exactly one
AccessUnitReady event whose NAL-unit list is the packets' payloads in
sequence-number order with the damaged flag false. -/
theorem claim_C1_single_nal_run (cfg : Config) (ts seq0 : Nat)
    (payloads : List (List Nat)) (hne : payloads ≠ [])
    (hty0 : ∀ pl ∈ payloads,
      pl ≠ [] ∧ 1 ≤ nalType (pl.headD 0) ∧ nalType (pl.headD 0) ≤ 23)
    (hbound : payloads.length ≤ M16) :
    (stepMany cfg false payloads.length
        { initAsmState with queue := mkSingleRun seq0 ts payloads }).2 =
      [.accessUnitReady ts (payloads.map (mkNalOfPayload ts)) false]
    ∧ (payloads.map (mkNalOfPayload ts)).map NalUnit.data = payloads := by
  have hty : ∀ pl ∈ payloads, ∃ hd tl, pl = hd :: tl ∧ 1 ≤ nalType hd ∧ nalType hd ≤ 23 := by
    intro pl h
    obtain ⟨h1, h2, h3⟩ := hty0 pl h
    obtain ⟨hd, tl, rfl⟩ := List.exists_cons_of_ne_nil h1
    exact ⟨hd, tl, rfl, by simpa using h2, by simpa using h3⟩
  constructor
  · have hinit : ({ initAsmState with queue := mkSingleRun seq0 ts payloads } : AsmState)
        = ⟨mkSingleRun seq0 ts payloads, false, 0, false, 0, [], 0, 0, 0, false, none, false⟩ := rfl
    rw [hinit]
    cases payloads with
    | nil => exact absurd rfl hne
    | cons pl pls =>
      obtain ⟨hd, tl, hpl, h1, h2⟩ := hty pl (List.mem_cons_self pl pls)
      cases pls with
      | nil =>
        have hstep := step_consume_idle cfg false
          ⟨mkSingleRun seq0 ts [pl], false, 0, false, 0, [], 0, 0, 0, false, none, false⟩
          ⟨seq0 % M16, ts, true, pl⟩ [] rfl rfl rfl rfl
        have hdep := depacketize_single none ⟨seq0 % M16, ts, true, pl⟩ hd tl hpl h1 h2
        simp only [List.length_cons, List.length_nil, stepMany]
        rw [hstep]
        rw [consumePacket.eq_def]
        rw [show (⟨mkSingleRun seq0 ts [pl], false, 0, false, 0, [], 0, 0, 0, false,
          none, false⟩ : AsmState).fragState = none from rfl]
        rw [hdep]
        simp only [Bool.false_eq_true, if_false, Bool.true_or, if_true]
        rw [closeAccessUnit]
        rw [if_neg (by simp)]
        rw [if_pos (by simp only [auExpectedCount, M16]; omega)]
        simp [mkNalOfPayload, hpl]
      | cons pl2 pls2 =>
        have hstep := step_consume_idle cfg false
          ⟨mkSingleRun seq0 ts (pl :: pl2 :: pls2), false, 0, false, 0, [], 0, 0, 0,
           false, none, false⟩
          ⟨seq0 % M16, ts, false, pl⟩ (mkSingleRun (seq0 + 1) ts (pl2 :: pls2)) rfl rfl rfl rfl
        have hdep := depacketize_single none ⟨seq0 % M16, ts, false, pl⟩ hd tl hpl h1 h2
        obtain ⟨q, rest2, hqr, hqts⟩ := mkSingleRun_head_ts (seq0 + 1) ts pl2 pls2
        have hlen : (pl :: pl2 :: pls2).length = (pl2 :: pls2).length + 1 := rfl
        rw [hlen, stepMany]
        rw [hstep]
        rw [consumePacket.eq_def]
        rw [show (⟨mkSingleRun seq0 ts (pl :: pl2 :: pls2), false, 0, false, 0, [], 0, 0, 0,
          false, none, false⟩ : AsmState).fragState = none from rfl]
        rw [hdep]
        simp only [Bool.false_eq_true, if_false, hqr]
        simp only [hqts, decide_not, Bool.false_or]
        simp only [decide_True, Bool.not_true, Bool.false_eq_true, if_false]
        have hIH := stepMany_singleRun cfg ts (pl2 :: pls2) (List.cons_ne_nil pl2 pls2)
          (fun x hx => hty x (List.mem_cons_of_mem pl hx))
          (seq0 + 1)
          ⟨q :: rest2, true, nextSeq (seq0 % M16), true, ts,
           [⟨ts, nalType hd, pl⟩], seq0 % M16, seq0 % M16, 1, false, none, false⟩
          rfl rfl rfl rfl (nextSeq_mod seq0).symm hqr.symm rfl
          (by simp only [M16, List.length_cons] at * ; omega)
          (by simp only [M16, List.length_cons] at * ; omega)
          (by simp only [M16, List.length_cons] at * ; omega)
          (by simp only [M16, List.length_cons] at * ; omega)
          (by simp only [M16, List.length_cons] at * ; omega)
        rw [hIH]
        simp [mkNalOfPayload, hpl]
  · have hcomp : NalUnit.data ∘ mkNalOfPayload ts = id := funext fun pl => rfl
    simp only [List.map_map, hcomp, List.map_id]

/-- Witness for C1: a three-packet run across the sequence-number
wraparound at 65534. -/
theorem claim_C1_witness :
    (stepMany ⟨(1 : ℚ)/2⟩ false 3
        { initAsmState with queue := mkSingleRun 65534 7 [[1], [2], [3]] }).2 =
      [.accessUnitReady 7 [⟨7, 1, [1]⟩, ⟨7, 2, [2]⟩, ⟨7, 3, [3]⟩] false]
    ∧ ([[1], [2], [3]].map (mkNalOfPayload 7)).map NalUnit.data = [[1], [2], [3]] := by
  exact claim_C1_single_nal_run ⟨(1 : ℚ)/2⟩ 7 65534 [[1], [2], [3]]
    (by decide) (by decide) (by decide)

end RtpAssembly

namespace RtpAssembly

/-- C4: closing an access unit whose span was fully consumed emits it
complete (damaged false); one with gaps whose present-to-expected ratio
meets the salvage threshold is emitted damaged with exactly the received
NAL units; one below the threshold produces no AccessUnitReady — an
AccessUnitDiscarded event is emitted instead. -/
theorem claim_C4_closing_policy (cfg : Config) (s1 s2 s3 : AsmState)
    (h1rec : s1.unrecoverable = false)
    (h1 : s1.auPresentCount = auExpectedCount s1)
    (h2rec : s2.unrecoverable = false)
    (h2 : s2.auPresentCount ≠ auExpectedCount s2)
    (h2sal : cfg.minRatio ≤ (s2.auPresentCount : ℚ) / (auExpectedCount s2 : ℚ))
    (h3rec : s3.unrecoverable = false)
    (h3 : s3.auPresentCount ≠ auExpectedCount s3)
    (h3sal : ¬ cfg.minRatio ≤ (s3.auPresentCount : ℚ) / (auExpectedCount s3 : ℚ)) :
    closeAccessUnit cfg s1 =
      (resetAU s1, [.accessUnitReady s1.accessUnitRTPTime s1.nalUnits false])
    ∧ closeAccessUnit cfg s2 =
      (resetAU s2, [.accessUnitReady s2.accessUnitRTPTime s2.nalUnits true])
    ∧ closeAccessUnit cfg s3 =
      (resetAU s3, [.accessUnitDiscarded s3.accessUnitRTPTime]) := by
  refine ⟨closeAccessUnit_complete cfg s1 h1rec h1, ?_, ?_⟩
  · have hs : shouldSalvage (auExpectedCount s2) s2.auPresentCount cfg.minRatio = true :=
      (shouldSalvage_iff _ _ _ (by simp [auExpectedCount])).mpr h2sal
    rw [closeAccessUnit, if_neg (by simp [h2rec]), if_neg h2, if_pos hs]
  · have hs : ¬ shouldSalvage (auExpectedCount s3) s3.auPresentCount cfg.minRatio = true := by
      rw [shouldSalvage_iff _ _ _ (by simp [auExpectedCount])]
      exact h3sal
    rw [closeAccessUnit, if_neg (by simp [h3rec]), if_neg h3, if_neg hs]

/-- Witness for C4: a complete one-packet unit, a nine-of-ten unit above
a one-half threshold, and a two-of-ten unit below it. -/
theorem claim_C4_witness :
    closeAccessUnit ⟨(1 : ℚ)/2⟩ ⟨[], true, 1, true, 100, [], 0, 0, 1, false, none, false⟩ =
      (resetAU ⟨[], true, 1, true, 100, [], 0, 0, 1, false, none, false⟩,
       [.accessUnitReady 100 [] false])
    ∧ closeAccessUnit ⟨(1 : ℚ)/2⟩ ⟨[], true, 10, true, 100, [], 0, 9, 9, false, none, false⟩ =
      (resetAU ⟨[], true, 10, true, 100, [], 0, 9, 9, false, none, false⟩,
       [.accessUnitReady 100 [] true])
    ∧ closeAccessUnit ⟨(1 : ℚ)/2⟩ ⟨[], true, 10, true, 100, [], 0, 9, 2, false, none, false⟩ =
      (resetAU ⟨[], true, 10, true, 100, [], 0, 9, 2, false, none, false⟩,
       [.accessUnitDiscarded 100]) := by
  exact claim_C4_closing_policy ⟨(1 : ℚ)/2⟩
    ⟨[], true, 1, true, 100, [], 0, 0, 1, false, none, false⟩
    ⟨[], true, 10, true, 100, [], 0, 9, 9, false, none, false⟩
    ⟨[], true, 10, true, 100, [], 0, 9, 2, false, none, false⟩
    rfl (by decide) rfl (by decide)
    (by norm_num [auExpectedCount, M16])
    rfl (by decide)
    (by norm_num [auExpectedCount, M16])

/-- C8: packetLost abandons any open FragmentState and marks the
accumulating access unit unrecoverable; an unrecoverable unit closes via
the Discarding path; consuming further packets of that timestamp keeps
the unit unrecoverable; and a subsequent start fragment or single-NAL
packet begins a clean unit holding only its own bytes. -/
theorem claim_C8_packetLost (cfg : Config) (s s2 : AsmState) (p : Packet)
    (seq ts orig : Nat) (body : List Nat) (hd : Nat) (tl : List Nat)
    (hacc : s2.accumulating = true) (hrec : s2.unrecoverable = true)
    (hmk : p.marker = false)
    (hpl : p.payload = hd :: tl) (h1 : 1 ≤ nalType hd) (h2 : nalType hd ≤ 23) :
    (packetLost s).fragState = none
    ∧ (packetLost s).unrecoverable = true
    ∧ closeAccessUnit cfg s2 =
        (resetAU s2, [.accessUnitDiscarded s2.accessUnitRTPTime])
    ∧ (consumePacket cfg s2 p []).1.unrecoverable = true
    ∧ depacketize none (mkFuPacket seq ts true false orig body)
        = ⟨some ⟨body, orig % 32, seq % M16⟩, [], none⟩
    ∧ depacketize none p = ⟨none, [⟨p.timestamp, nalType hd, p.payload⟩], none⟩ := by
  refine ⟨rfl, rfl, ?_, ?_, ?_, ?_⟩
  · rw [closeAccessUnit, if_pos hrec]
  · rw [consumePacket.eq_def]
    simp [hacc, hmk, hrec]
  · rw [depacketize_mkFuPacket]
    simp
  · exact depacketize_single none p hd tl hpl h1 h2

/-- Witness for C8: a loss signal over a fresh state, an unrecoverable
accumulating unit absorbing one more packet, and a clean start fragment
and single-NAL packet afterwards. -/
theorem claim_C8_witness :
    (packetLost initAsmState).fragState = none
    ∧ (packetLost initAsmState).unrecoverable = true
    ∧ closeAccessUnit ⟨(1 : ℚ)/2⟩ ⟨[], true, 5, true, 200, [], 2, 4, 3, true, none, false⟩ =
        (resetAU ⟨[], true, 5, true, 200, [], 2, 4, 3, true, none, false⟩,
         [.accessUnitDiscarded 200])
    ∧ (consumePacket ⟨(1 : ℚ)/2⟩ ⟨[], true, 5, true, 200, [], 2, 4, 3, true, none, false⟩
        ⟨5, 200, false, [1, 7]⟩ []).1.unrecoverable = true
    ∧ depacketize none (mkFuPacket 65535 200 true false 7 [9])
        = ⟨some ⟨[9], 7 % 32, 65535 % M16⟩, [], none⟩
    ∧ depacketize none ⟨5, 200, false, [1, 7]⟩
        = ⟨none, [⟨200, nalType 1, [1, 7]⟩], none⟩ := by
  exact claim_C8_packetLost ⟨(1 : ℚ)/2⟩ initAsmState
    ⟨[], true, 5, true, 200, [], 2, 4, 3, true, none, false⟩
    ⟨5, 200, false, [1, 7]⟩ 65535 200 7 [9] 1 [7]
    rfl rfl rfl rfl (by decide) (by decide)

theorem closeAccessUnit_fst_ended (cfg : Config) (s : AsmState) :
    (closeAccessUnit cfg s).1.ended = s.ended := by
  rw [closeAccessUnit]
  split_ifs <;> rfl

theorem consumePacket_fst_ended (cfg : Config) (s : AsmState) (p : Packet)
    (rest : List Packet) : (consumePacket cfg s p rest).1.ended = s.ended := by
  rw [consumePacket.eq_def]
  by_cases hacc : s.accumulating = true <;>
    simp only [hacc, if_true, Bool.false_eq_true, if_false] <;>
    split_ifs <;>
    first
      | rfl
      | (rw [closeAccessUnit_fst_ended])

theorem step_fst_ended (cfg : Config) (d : Bool) (s : AsmState) :
    (step cfg d s).1.ended = s.ended := by
  rw [step]
  by_cases hend : s.ended = true
  · simp [hend]
  · have hend2 : s.ended = false := by simpa using hend
    simp only [hend2, Bool.false_eq_true, if_false]
    cases hq : s.queue with
    | nil => simp [hend2]
    | cons p rest =>
      simp only [apply_ite (fun x : AsmState × List Event => x.1.ended),
        closeAccessUnit_fst_ended, consumePacket_fst_ended, hend2, ite_self]

/-- C9: no operation other than onSessionEnd ends processing — step,
enqueue and packetLost leave the session-ended flag unchanged,
onSessionEnd sets it, and once ended the assembler ignores all further
input. -/
theorem claim_C9_no_terminal_state (cfg : Config) (d : Bool) (s s2 : AsmState)
    (p : Packet) (hend2 : s2.ended = true) :
    (step cfg d s).1.ended = s.ended
    ∧ (enqueue s p).ended = s.ended
    ∧ (packetLost s).ended = s.ended
    ∧ (onSessionEnd cfg s).1.ended = true
    ∧ step cfg d s2 = (s2, [])
    ∧ enqueue s2 p = s2 := by
  refine ⟨step_fst_ended cfg d s, ?_, rfl, ?_, ?_, ?_⟩
  · rw [enqueue]
    split_ifs <;> rfl
  · rw [onSessionEnd]
    split_ifs <;> rfl
  · rw [step, if_pos hend2]
  · rw [enqueue, if_pos hend2]

/-- Witness for C9 at the initial state and at an ended state. -/
theorem claim_C9_witness :
    (step ⟨(1 : ℚ)/2⟩ false initAsmState).1.ended = initAsmState.ended
    ∧ (enqueue initAsmState ⟨0, 0, false, [1]⟩).ended = initAsmState.ended
    ∧ (packetLost initAsmState).ended = initAsmState.ended
    ∧ (onSessionEnd ⟨(1 : ℚ)/2⟩ initAsmState).1.ended = true
    ∧ step ⟨(1 : ℚ)/2⟩ false ⟨[], false, 0, false, 0, [], 0, 0, 0, false, none, true⟩ =
        (⟨[], false, 0, false, 0, [], 0, 0, 0, false, none, true⟩, [])
    ∧ enqueue ⟨[], false, 0, false, 0, [], 0, 0, 0, false, none, true⟩ ⟨0, 0, false, [1]⟩ =
        ⟨[], false, 0, false, 0, [], 0, 0, 0, false, none, true⟩ := by
  exact claim_C9_no_terminal_state ⟨(1 : ℚ)/2⟩ false initAsmState
    ⟨[], false, 0, false, 0, [], 0, 0, 0, false, none, true⟩
    ⟨0, 0, false, [1]⟩ rfl

end RtpAssembly

namespace RtpAssembly

theorem insertBySeq_map_perm (p : Packet) (q : List Packet) :
    List.Perm ((insertBySeq p q).map Packet.seqNo) (p.seqNo :: q.map Packet.seqNo) := by
  induction q with
  | nil => simp [insertBySeq]
  | cons q0 rest ih =>
    rw [insertBySeq]
    split_ifs with h
    · simp
    · simp only [List.map_cons]
      exact ((ih.cons q0.seqNo).trans (List.Perm.swap p.seqNo q0.seqNo _))

theorem enqueuePacket_nodup (p : Packet) (q : List Packet)
    (hnodup : (q.map Packet.seqNo).Nodup) :
    ((enqueuePacket p q).map Packet.seqNo).Nodup := by
  rw [enqueuePacket]
  split_ifs with h
  · exact hnodup
  · refine (insertBySeq_map_perm p q).nodup_iff.mpr ?_
    refine List.nodup_cons.mpr ⟨?_, hnodup⟩
    intro hmem
    apply h
    rw [List.any_eq_true]
    obtain ⟨e, he, heq⟩ := List.mem_map.mp hmem
    exact ⟨e, he, by simp [heq]⟩

/-- C7: the PendingQueue drops a duplicate sequence number on arrival,
enqueueing preserves the no-duplicate-sequence-number invariant, and
re-delivering a sequence number that precedes the next expected one
(hence was already consumed) is a no-op: the stale packet is dropped by
the next step without emitting anything or contributing any payload. -/
theorem claim_C7_duplicate_handling (cfg : Config) (d : Bool) (s : AsmState)
    (p p2 p3 : Packet) (q : List Packet)
    (hdup : q.any (fun e => e.seqNo = p2.seqNo) = true)
    (hnodup : (q.map Packet.seqNo).Nodup)
    (hend : s.ended = false) (hvalid : s.nextExpectedSeqNoValid = true)
    (hstale : precedes p.seqNo s.nextExpectedSeqNo = true)
    (hahead : ∀ e ∈ s.queue, precedes p.seqNo e.seqNo = true) :
    enqueuePacket p2 q = q
    ∧ ((enqueuePacket p3 q).map Packet.seqNo).Nodup
    ∧ step cfg d (enqueue s p) = (s, []) := by
  refine ⟨by rw [enqueuePacket, if_pos hdup], enqueuePacket_nodup p3 q hnodup, ?_⟩
  obtain ⟨qs, v, nx, ac, rtp, nals, sts, la, cnt, unr, fs, en⟩ := s
  simp only at hend hvalid hstale hahead
  subst hend
  subst hvalid
  have hins : enqueuePacket p qs = p :: qs := by
    rw [enqueuePacket]
    rw [if_neg ?hno]
    case hno =>
      rw [List.any_eq_true]
      rintro ⟨e, he, heq⟩
      have h2 := hahead e he
      have h3 : e.seqNo = p.seqNo := by simpa using heq
      rw [← h3] at h2
      rw [precedes_self] at h2
      exact absurd h2 (by simp)
    cases hq : qs with
    | nil => rfl
    | cons q0 rest =>
      subst hq
      rw [insertBySeq, if_pos (hahead q0 (List.mem_cons_self q0 rest))]
  have henq : enqueue (AsmState.mk qs true nx ac rtp nals sts la cnt unr fs false) p =
      AsmState.mk (p :: qs) true nx ac rtp nals sts la cnt unr fs false := by
    rw [enqueue]
    simp only [Bool.false_eq_true, if_false]
    simp [hins]
  rw [henq, step]
  simp only [Bool.false_eq_true, if_false]
  simp only [hstale, Bool.and_self, Bool.true_and, if_true]

/-- Witness for C7: a duplicate arrival into a two-entry queue, nodup
preservation for a fresh packet, and a stale re-delivery dropped by the
next step. -/
theorem claim_C7_witness :
    enqueuePacket ⟨5, 0, false, [2]⟩ [⟨5, 0, false, [1]⟩, ⟨7, 0, false, [2]⟩]
      = [⟨5, 0, false, [1]⟩, ⟨7, 0, false, [2]⟩]
    ∧ ((enqueuePacket ⟨9, 0, false, [4]⟩
        [⟨5, 0, false, [1]⟩, ⟨7, 0, false, [2]⟩]).map Packet.seqNo).Nodup
    ∧ step ⟨(1 : ℚ)/2⟩ false
        (enqueue ⟨[⟨10, 0, false, [1]⟩], true, 10, false, 0, [], 0, 0, 0, false, none, false⟩
          ⟨8, 0, false, [3]⟩)
      = (⟨[⟨10, 0, false, [1]⟩], true, 10, false, 0, [], 0, 0, 0, false, none, false⟩, []) := by
  exact claim_C7_duplicate_handling ⟨(1 : ℚ)/2⟩ false
    ⟨[⟨10, 0, false, [1]⟩], true, 10, false, 0, [], 0, 0, 0, false, none, false⟩
    ⟨8, 0, false, [3]⟩ ⟨5, 0, false, [2]⟩ ⟨9, 0, false, [4]⟩
    [⟨5, 0, false, [1]⟩, ⟨7, 0, false, [2]⟩]
    (by decide) (by decide) rfl rfl (by decide) (by decide)

end RtpAssembly
